import Mathlib

/-
  Verification of the feed-handler core: a shallow embedding of the
  zero-copy decoder, the incremental order book, the sequence-gap
  detector and the snapshot recovery manager, with theorems about the
  properties the specification states.

  Machine integers are embedded as Nat with explicit wrapping
  (`% 4294967296`) where the source uses wrapping 32-bit arithmetic;
  Rust's `saturating_sub` on unsigned integers is Nat's truncated
  subtraction, and `saturating_add` on u32 is `min _ 4294967295`.
  Rust's `BTreeMap`/`HashMap` are embedded as association lists with
  map-semantics operations; `BTreeMap`'s ordered iteration is embedded
  by taking the maximal/minimal key directly.
-/

namespace FeedHandler

/-- 2^32, the modulus of wrapping u32 arithmetic. -/
def U32 : Nat := 4294967296

/-- u32::MAX, the bound of saturating u32 arithmetic. -/
def U32MAX : Nat := 4294967295

/-- Map lookup on an association list (Rust `BTreeMap::get` / `HashMap::get`). -/
def lookupA {α : Type} : List (Nat × α) → Nat → Option α
  | [], _ => none
  | (k, v) :: tl, key => if k = key then some v else lookupA tl key

/-- Map insert-or-replace on an association list (`insert` of Rust maps). -/
def insertA {α : Type} (key : Nat) (v : α) : List (Nat × α) → List (Nat × α)
  | [] => [(key, v)]
  | (k, w) :: tl => if k = key then (k, v) :: tl else (k, w) :: insertA key v tl

/-- Map removal on an association list (`remove` of Rust maps). -/
def removeA {α : Type} (key : Nat) : List (Nat × α) → List (Nat × α)
  | [] => []
  | (k, w) :: tl => if k = key then tl else (k, w) :: removeA key tl

/-- book_builder.rs: `enum Side`. -/
inductive Side where
  | bid
  | ask
deriving DecidableEq

/-- book_builder.rs: `Side::from_u8` (0 = Bid, 1 = Ask, else invalid). -/
def Side.fromU8 (v : Nat) : Option Side :=
  if v = 0 then some Side.bid
  else if v = 1 then some Side.ask
  else none

/-- book_builder.rs: `struct Order`. -/
structure Order where
  orderId : Nat
  price : Nat
  quantity : Nat
  side : Side
deriving DecidableEq

/-- book_builder.rs: `struct OrderBook` (bids/asks: price-level maps,
orders: order_id map). -/
structure OrderBook where
  bids : List (Nat × Nat)
  asks : List (Nat × Nat)
  orders : List (Nat × Order)
deriving DecidableEq

/-- decoder.rs: `enum MessageRef`, the decoded message views handed to
the book (field values only; padding and the price of a trade are not
used by the book). -/
inductive Msg where
  | addOrder (orderId price quantity side : Nat)
  | modifyOrder (orderId newQuantity : Nat)
  | deleteOrder (orderId : Nat)
  | trade (buyerOrderId sellerOrderId price quantity : Nat)
  | snapshot (bidLevels askLevels : List (Nat × Nat))
deriving DecidableEq

/-- The semantic errors `OrderBook::apply_message` reports (the source
returns them as strings: "Invalid side", "Duplicate order ID: _",
"Order not found: _"). -/
inductive BookError where
  | invalidSide
  | duplicateOrder (orderId : Nat)
  | orderNotFound (orderId : Nat)
deriving DecidableEq

/-- book_builder.rs: `OrderBook::new`. -/
def OrderBook.new : OrderBook := ⟨[], [], []⟩

/-- The side's level map (`match side { Bid => &mut self.bids, Ask => &mut self.asks }`). -/
def OrderBook.levelMap (b : OrderBook) : Side → List (Nat × Nat)
  | Side.bid => b.bids
  | Side.ask => b.asks

/-- Writing back the side's level map after mutation. -/
def OrderBook.setLevelMap (b : OrderBook) : Side → List (Nat × Nat) → OrderBook
  | Side.bid, m => { b with bids := m }
  | Side.ask, m => { b with asks := m }

/-- book_builder.rs line 79: `*level_map.entry(price).or_insert(0) += quantity`
(u32 addition, wrapping modulus on overflow). -/
def entryAdd (price qty : Nat) : List (Nat × Nat) → List (Nat × Nat)
  | [] => [(price, (0 + qty) % U32)]
  | (k, v) :: tl =>
    if k = price then (k, (v + qty) % U32) :: tl else (k, v) :: entryAdd price qty tl

/-- book_builder.rs: `OrderBook::_remove_from_level` — subtract the
order's (current) quantity from its price level, removing the level key
when the aggregate reaches zero. -/
def OrderBook.removeFromLevel (b : OrderBook) (order : Order) : OrderBook :=
  let lm := b.levelMap order.side
  match lookupA lm order.price with
  | some qty =>
    let q := qty - order.quantity
    if q = 0 then b.setLevelMap order.side (removeA order.price lm)
    else b.setLevelMap order.side (insertA order.price q lm)
  | none => b

/-- book_builder.rs lines 141-180: one side of the Trade arm.  The source
first writes `order.quantity = order.quantity.saturating_sub(qty)` into the
stored record; when that reaches zero it removes the record and passes the
(already zeroed) record to `_remove_from_level`, otherwise it subtracts
`qty` from the level and drops the level key on zero. -/
def OrderBook.tradeSide (b : OrderBook) (oid qty : Nat) : OrderBook :=
  match lookupA b.orders oid with
  | none => b
  | some order =>
    let newQty := order.quantity - qty
    if newQty = 0 then
      let removed : Order := { order with quantity := newQty }
      let b1 : OrderBook := { b with orders := removeA oid b.orders }
      b1.removeFromLevel removed
    else
      let b1 : OrderBook := { b with orders := insertA oid { order with quantity := newQty } b.orders }
      let lm := b1.levelMap order.side
      match lookupA lm order.price with
      | some lq =>
        let l := lq - qty
        if l = 0 then b1.setLevelMap order.side (removeA order.price lm)
        else b1.setLevelMap order.side (insertA order.price l lm)
      | none => b1

/-- book_builder.rs lines 192-207: install the snapshot's levels with
`quantity > 0` into a cleared side map (later entries at a price
overwrite earlier ones; zero-quantity levels are skipped). -/
def installLevels (ls : List (Nat × Nat)) : List (Nat × Nat) :=
  ls.foldl (fun m l => if 0 < l.2 then insertA l.1 l.2 m else m) []

/-- book_builder.rs: `OrderBook::apply_message`.  The pair returned is the
book after the call (Rust mutates `&mut self`) and the reported error, if
any; every error path of the source returns before mutating. -/
def OrderBook.applyMessage (b : OrderBook) (m : Msg) : OrderBook × Option BookError :=
  match m with
  | Msg.addOrder orderId price quantity side =>
    match Side.fromU8 side with
    | none => (b, some BookError.invalidSide)
    | some s =>
      if (lookupA b.orders orderId).isSome then
        (b, some (BookError.duplicateOrder orderId))
      else
        let order : Order := ⟨orderId, price, quantity, s⟩
        let b1 := b.setLevelMap s (entryAdd price quantity (b.levelMap s))
        ({ b1 with orders := insertA orderId order b1.orders }, none)
  | Msg.modifyOrder orderId newQuantity =>
    match lookupA b.orders orderId with
    | none => (b, some (BookError.orderNotFound orderId))
    | some order =>
      let oldQty := order.quantity
      let lm := b.levelMap order.side
      let lm1 :=
        match lookupA lm order.price with
        | some levelQty =>
          let lq := min (levelQty - oldQty + newQuantity) U32MAX
          if lq = 0 then removeA order.price lm else insertA order.price lq lm
        | none => lm
      let b1 := b.setLevelMap order.side lm1
      ({ b1 with orders := insertA orderId { order with quantity := newQuantity } b1.orders }, none)
  | Msg.deleteOrder orderId =>
    match lookupA b.orders orderId with
    | none => (b, some (BookError.orderNotFound orderId))
    | some order =>
      let b1 : OrderBook := { b with orders := removeA orderId b.orders }
      let lm := b1.levelMap order.side
      let lm1 :=
        match lookupA lm order.price with
        | some levelQty =>
          let lq := levelQty - order.quantity
          if lq = 0 then removeA order.price lm else insertA order.price lq lm
        | none => lm
      (b1.setLevelMap order.side lm1, none)
  | Msg.trade buyerId sellerId _price qty =>
    let b1 := b.tradeSide buyerId qty
    let b2 := b1.tradeSide sellerId qty
    (b2, none)
  | Msg.snapshot bidLevels askLevels =>
    ({ bids := installLevels bidLevels, asks := installLevels askLevels, orders := [] }, none)

/-- Step of `best_bid`: keep the entry with the larger key
(`bids.iter().rev().next()` = the maximal key of the ordered map). -/
def pickHigher (acc : Option (Nat × Nat)) (e : Nat × Nat) : Option (Nat × Nat) :=
  match acc with
  | none => some e
  | some m => if m.1 < e.1 then some e else some m

/-- Step of `best_ask`: keep the entry with the smaller key
(`asks.iter().next()` = the minimal key of the ordered map). -/
def pickLower (acc : Option (Nat × Nat)) (e : Nat × Nat) : Option (Nat × Nat) :=
  match acc with
  | none => some e
  | some m => if e.1 < m.1 then some e else some m

/-- book_builder.rs: `OrderBook::best_bid`. -/
def OrderBook.bestBid (b : OrderBook) : Option (Nat × Nat) :=
  b.bids.foldl pickHigher none

/-- book_builder.rs: `OrderBook::best_ask`. -/
def OrderBook.bestAsk (b : OrderBook) : Option (Nat × Nat) :=
  b.asks.foldl pickLower none

/-- book_builder.rs: `OrderBook::spread`. -/
def OrderBook.spread (b : OrderBook) : Option Nat :=
  match b.bestBid, b.bestAsk with
  | some bid, some ask => if bid.1 < ask.1 then some (ask.1 - bid.1) else none
  | _, _ => none

/-- gap_detector.rs: `struct GapDetector`. -/
structure GapDetector where
  lastSequence : Option Nat
  gaps : List (Nat × Nat)
  totalGapCount : Nat
deriving DecidableEq

/-- gap_detector.rs: `GapDetector::new`. -/
def GapDetector.new : GapDetector := ⟨none, [], 0⟩

/-- gap_detector.rs: `GapDetector::process` (u32 wrapping arithmetic). -/
def GapDetector.process (d : GapDetector) (seqNum : Nat) : GapDetector :=
  match d.lastSequence with
  | none => { d with lastSequence := some seqNum }
  | some last =>
    let expectedNext := (last + 1) % U32
    if seqNum ≠ expectedNext then
      let gapSize := (seqNum + U32 - expectedNext) % U32
      { lastSequence := some seqNum,
        gaps := d.gaps ++ [(expectedNext, (seqNum + U32 - 1) % U32)],
        totalGapCount := (d.totalGapCount + gapSize) % U32 }
    else { d with lastSequence := some seqNum }

/-- gap_detector.rs: `GapDetector::total_gaps`. -/
def GapDetector.totalGaps (d : GapDetector) : Nat := d.totalGapCount

/-- gap_detector.rs: `GapDetector::is_in_gap`. -/
def GapDetector.isInGap (d : GapDetector) (seqNum : Nat) : Bool :=
  d.gaps.any (fun g => decide (g.1 ≤ seqNum) && decide (seqNum ≤ g.2))

/-- The errors `RecoveryManager` reports (strings in the source:
"Expected snapshot message", "Message sequence _ is before last
snapshot _", or an error passed through from the book). -/
inductive RecoveryError where
  | expectedSnapshot
  | staleUpdate (seqNum lastSnap : Nat)
  | bookErr (e : BookError)
deriving DecidableEq

/-- A decoded message together with its header sequence number
(`MessageRef::sequence`). -/
structure SeqMsg where
  seqNum : Nat
  msg : Msg
deriving DecidableEq

/-- recovery.rs: `struct RecoveryManager`. -/
structure RecoveryManager where
  lastSnapshotSeq : Option Nat
  book : OrderBook
deriving DecidableEq

/-- recovery.rs: `RecoveryManager::new`. -/
def RecoveryManager.new : RecoveryManager := ⟨none, OrderBook.new⟩

/-- recovery.rs: `RecoveryManager::apply_snapshot`. -/
def RecoveryManager.applySnapshot (rm : RecoveryManager) (m : SeqMsg) :
    RecoveryManager × Except RecoveryError Nat :=
  match m.msg with
  | Msg.snapshot _ _ =>
    let r := rm.book.applyMessage m.msg
    match r.2 with
    | some err => ({ rm with book := r.1 }, Except.error (RecoveryError.bookErr err))
    | none => ({ lastSnapshotSeq := some m.seqNum, book := r.1 }, Except.ok m.seqNum)
  | _ => (rm, Except.error RecoveryError.expectedSnapshot)

/-- recovery.rs: `RecoveryManager::apply_update`. -/
def RecoveryManager.applyUpdate (rm : RecoveryManager) (m : SeqMsg) :
    RecoveryManager × Option RecoveryError :=
  match rm.lastSnapshotSeq with
  | some lastSnap =>
    if m.seqNum ≤ lastSnap then (rm, some (RecoveryError.staleUpdate m.seqNum lastSnap))
    else
      let r := rm.book.applyMessage m.msg
      ({ rm with book := r.1 }, r.2.map RecoveryError.bookErr)
  | none =>
    let r := rm.book.applyMessage m.msg
    ({ rm with book := r.1 }, r.2.map RecoveryError.bookErr)

/-- protocol.rs: `HEADER_SIZE`. -/
def HEADER_SIZE : Nat := 8

/-- decoder.rs: `enum DecodeError`. -/
inductive DecodeError where
  | bufferTooSmall (need got : Nat)
  | invalidMessageType (t : Nat)
  | truncatedMessage (declared actual : Nat)
  | invalidHeader
  | misalignedSnapshot
deriving DecidableEq

/-- Little-endian read of `n` bytes starting at `off` (bounds are
guaranteed by the decoder's length checks before any read). -/
def leRead (buf : List Nat) (off : Nat) : Nat → Nat
  | 0 => 0
  | k + 1 => buf.getD off 0 + 256 * leRead buf (off + 1) k

/-- decoder.rs Snapshot arm: read `count` snapshot levels (price u64,
quantity u32, 4 bytes padding — 16 bytes each) starting at `off`. -/
def readLevels (buf : List Nat) (off : Nat) : Nat → List (Nat × Nat)
  | 0 => []
  | k + 1 => (leRead buf off 8, leRead buf (off + 8) 4) :: readLevels buf (off + 16) k

/-- decoder.rs: the per-type block of `Decoder::decode` (the `match
msg_type_enum` expression), projecting the typed view from the validated
message slice of length `len`.  Sizes 46/26/16/30/16 are the Rust struct
sizes checked by protocol.rs's compile-time assertions. -/
def decodePayload (buf : List Nat) (msgType len sequence : Nat) : Except DecodeError SeqMsg :=
  if msgType = 1 then
    if len < 46 then Except.error (DecodeError.bufferTooSmall 46 len)
    else Except.ok ⟨sequence,
      Msg.addOrder (leRead buf 8 8) (leRead buf 16 8) (leRead buf 24 4) (buf.getD 28 0)⟩
  else if msgType = 2 then
    if len < 26 then Except.error (DecodeError.bufferTooSmall 26 len)
    else Except.ok ⟨sequence, Msg.modifyOrder (leRead buf 8 8) (leRead buf 16 4)⟩
  else if msgType = 3 then
    if len < 16 then Except.error (DecodeError.bufferTooSmall 16 len)
    else Except.ok ⟨sequence, Msg.deleteOrder (leRead buf 8 8)⟩
  else if msgType = 4 then
    if len < 30 then Except.error (DecodeError.bufferTooSmall 30 len)
    else Except.ok ⟨sequence,
      Msg.trade (leRead buf 8 8) (leRead buf 16 8) (leRead buf 24 8) (leRead buf 32 4)⟩
  else
    if len < 16 then Except.error (DecodeError.bufferTooSmall 16 len)
    else
      let numBids := leRead buf 8 4
      let numAsks := leRead buf 12 4
      let expectedSize := 16 + (numBids + numAsks) * 16
      if len < expectedSize then Except.error (DecodeError.truncatedMessage len len)
      else Except.ok ⟨sequence,
        Msg.snapshot (readLevels buf 16 numBids) (readLevels buf (16 + 16 * numBids) numAsks)⟩

/-- decoder.rs: `Decoder::decode` — parse one message from the front of
the buffer, returning the typed view and the bytes consumed (the header's
declared length). -/
def decode (buf : List Nat) : Except DecodeError (SeqMsg × Nat) :=
  if buf.length < HEADER_SIZE then
    Except.error (DecodeError.bufferTooSmall HEADER_SIZE buf.length)
  else
    let msgType := buf.getD 0 0
    let len := leRead buf 1 2
    let sequence := leRead buf 3 4
    if msgType < 1 ∨ 5 < msgType then Except.error (DecodeError.invalidMessageType msgType)
    else if len < HEADER_SIZE ∨ buf.length < len then
      Except.error (DecodeError.truncatedMessage len buf.length)
    else if buf.length < len then
      Except.error (DecodeError.truncatedMessage len buf.length)
    else
      match decodePayload buf msgType len sequence with
      | Except.ok m => Except.ok (m, len)
      | Except.error e => Except.error e

/-- A successful decode consumed the declared length: at least a header,
at most the whole buffer. -/
theorem decode_ok_consumed {buf : List Nat} {m : SeqMsg} {c : Nat}
    (h : decode buf = Except.ok (m, c)) : 8 ≤ c ∧ c ≤ buf.length := by
  simp only [decode, HEADER_SIZE] at h
  repeat' split at h
  all_goals
    first
      | exact Except.noConfusion h
      | (simp only [Except.ok.injEq, Prod.mk.injEq] at h
         obtain ⟨h1, h2⟩ := h
         subst h2
         omega)

/-- decoder.rs: the loop body of `Decoder::decode_stream`, recursing on
the remaining suffix of the buffer.  `BufferTooSmall` ends the stream
(`// normal end` in the source); other decode errors are returned. -/
def decodeStreamGo (buf : List Nat) (cb : SeqMsg → Bool) (count : Nat) :
    Except DecodeError Nat :=
  if buf = [] then Except.ok count
  else
    match hd : decode buf with
    | Except.ok (msg, consumed) =>
      if cb msg then decodeStreamGo (buf.drop consumed) cb (count + 1)
      else Except.ok count
    | Except.error (DecodeError.bufferTooSmall _ _) => Except.ok count
    | Except.error e => Except.error e
termination_by buf.length
decreasing_by
  have hc := decode_ok_consumed hd
  simp [List.length_drop]
  omega

/-- decoder.rs: `Decoder::decode_stream`. -/
def decodeStream (buf : List Nat) (cb : SeqMsg → Bool) : Except DecodeError Nat :=
  decodeStreamGo buf cb 0

/-- The sum of `quantity` over the records of `orders` with the given
side and price — the right-hand side of invariant I2. -/
def sumQtyAt (s : Side) (p : Nat) (orders : List (Nat × Order)) : Nat :=
  orders.foldl (fun a e => if e.2.side = s ∧ e.2.price = p then a + e.2.quantity else a) 0

/-- C1: evaluation of the Trade arm at a fully consumed order.  After
`AddOrder{id 1, price 100, qty 5, side Bid}` and `Trade{buyer 1, seller 2,
qty 5}` (both applied successfully), the buyer's record is removed from
`orders`, but the bid level at price 100 still holds quantity 5: the source
zeroes `order.quantity` before handing the record to `_remove_from_level`,
so the level is reduced by 0 rather than by min(trade qty, quantity before)
= 5, and the level key is not removed.  This contradicts the claim (and
invariant I2 documented on the `OrderBook` struct itself). -/
theorem C1_trade_full_consumption_leaves_level_stale :
    (OrderBook.new.applyMessage (Msg.addOrder 1 100 5 0)).2 = none ∧
    ((OrderBook.new.applyMessage (Msg.addOrder 1 100 5 0)).1.applyMessage
      (Msg.trade 1 2 0 5)).2 = none ∧
    ((OrderBook.new.applyMessage (Msg.addOrder 1 100 5 0)).1.applyMessage
      (Msg.trade 1 2 0 5)).1.orders = [] ∧
    ((OrderBook.new.applyMessage (Msg.addOrder 1 100 5 0)).1.applyMessage
      (Msg.trade 1 2 0 5)).1.bids = [(100, 5)] := by
  decide

/-- C2: a valid event stream (one AddOrder with positive quantity, valid
side byte and fresh id, then one Trade) after which invariant I2 fails:
price 100 is present in `bids` with aggregate 5, but the sum of the
quantities of the bid orders at price 100 in `orders` is 0. -/
theorem C2_invariant_I2_violated_by_trade :
    (0 < 5 ∧ Side.fromU8 0 = some Side.bid ∧ lookupA OrderBook.new.orders 1 = none) ∧
    (OrderBook.new.applyMessage (Msg.addOrder 1 100 5 0)).2 = none ∧
    ((OrderBook.new.applyMessage (Msg.addOrder 1 100 5 0)).1.applyMessage
      (Msg.trade 1 2 0 5)).2 = none ∧
    lookupA ((OrderBook.new.applyMessage (Msg.addOrder 1 100 5 0)).1.applyMessage
      (Msg.trade 1 2 0 5)).1.bids 100 = some 5 ∧
    sumQtyAt Side.bid 100 ((OrderBook.new.applyMessage (Msg.addOrder 1 100 5 0)).1.applyMessage
      (Msg.trade 1 2 0 5)).1.orders = 0 := by
  decide

/-- C7: whenever `apply_message` reports an error (DuplicateOrder,
UnknownOrder/"Order not found", or InvalidSide — the only errors it
produces), the book is returned exactly as it was before the call. -/
theorem C7_semantic_error_leaves_book_unchanged :
    ∀ (b : OrderBook) (m : Msg) (e : BookError),
      (b.applyMessage m).2 = some e → (b.applyMessage m).1 = b := by
  intro b m e h
  cases m with
  | addOrder oid p q s =>
    cases hs : Side.fromU8 s with
    | none => simp [OrderBook.applyMessage, hs]
    | some sv =>
      cases hl : (lookupA b.orders oid).isSome with
      | true => simp [OrderBook.applyMessage, hs, hl]
      | false => simp [OrderBook.applyMessage, hs, hl] at h
  | modifyOrder oid nq =>
    cases hl : lookupA b.orders oid with
    | none => simp [OrderBook.applyMessage, hl]
    | some ord => simp [OrderBook.applyMessage, hl] at h
  | deleteOrder oid =>
    cases hl : lookupA b.orders oid with
    | none => simp [OrderBook.applyMessage, hl]
    | some ord => simp [OrderBook.applyMessage, hl] at h
  | trade b1 s1 p q => simp [OrderBook.applyMessage] at h
  | snapshot bl al => simp [OrderBook.applyMessage] at h

/-- C7 witness: a ModifyOrder for an absent id is rejected and the empty
book is unchanged. -/
theorem C7_witness :
    ((OrderBook.new.applyMessage (Msg.modifyOrder 1 5)).1 = OrderBook.new) :=
  C7_semantic_error_leaves_book_unchanged OrderBook.new (Msg.modifyOrder 1 5)
    (BookError.orderNotFound 1) (by decide)

/-- C9: processing a duplicate of the last sequence number `l` is treated
as a wrapping gap: the interval (l+1, l-1) (u32 wrap) is recorded and
2^32 - 1 is added (wrapping) to the total gap count, so the state does
not stay unchanged. -/
theorem C9_duplicate_sequence_wraps :
    ∀ (d : GapDetector) (l : Nat), d.lastSequence = some l → l < U32 →
      d.process l =
        { lastSequence := some l,
          gaps := d.gaps ++ [((l + 1) % U32, (l + U32 - 1) % U32)],
          totalGapCount := (d.totalGapCount + (U32 - 1)) % U32 } ∧
      (d.process l).gaps ≠ d.gaps := by
  intro d l hl hlt
  have hne : l ≠ (l + 1) % U32 := by
    simp only [U32] at *
    omega
  have hg : (l + U32 - (l + 1) % U32) % U32 = U32 - 1 := by
    simp only [U32] at *
    omega
  have heq : d.process l =
      { lastSequence := some l,
        gaps := d.gaps ++ [((l + 1) % U32, (l + U32 - 1) % U32)],
        totalGapCount := (d.totalGapCount + (U32 - 1)) % U32 } := by
    simp only [GapDetector.process, hl, if_pos hne, hg]
  refine ⟨heq, ?_⟩
  rw [heq]
  intro hcon
  have := congrArg List.length hcon
  simp at this

/-- C9 witness: from state {last = 5, no gaps, total 0}, processing 5
records the wrapping interval (6, 4) and total 2^32 - 1. -/
theorem C9_witness :
    GapDetector.process ⟨some 5, [], 0⟩ 5 =
      { lastSequence := some 5, gaps := [(6, 4)], totalGapCount := 4294967295 } :=
  ((C9_duplicate_sequence_wraps ⟨some 5, [], 0⟩ 5 rfl (by decide)).1).trans (by decide)

/-- C5: with a snapshot of sequence S applied (last_snapshot_seq = S),
apply_update rejects any update with sequence ≤ S as stale leaving the
manager (book included) unchanged, passes any update with sequence > S
through to the book's apply, and never changes last_snapshot_seq; a
successful apply_snapshot of a Snapshot message sets last_snapshot_seq to
its sequence; with no snapshot ever applied, apply_update never rejects
for staleness. -/
theorem C5_recovery_stale_updates :
    (∀ (rm : RecoveryManager) (S : Nat), rm.lastSnapshotSeq = some S →
      (∀ m : SeqMsg, m.seqNum ≤ S →
        rm.applyUpdate m = (rm, some (RecoveryError.staleUpdate m.seqNum S))) ∧
      (∀ m : SeqMsg, S < m.seqNum →
        rm.applyUpdate m =
          ({ rm with book := (rm.book.applyMessage m.msg).1 },
            ((rm.book.applyMessage m.msg).2).map RecoveryError.bookErr)) ∧
      (∀ m : SeqMsg, ((rm.applyUpdate m).1).lastSnapshotSeq = some S)) ∧
    (∀ (rm0 : RecoveryManager) (S : Nat) (bl al : List (Nat × Nat)),
      (rm0.applySnapshot ⟨S, Msg.snapshot bl al⟩).1.lastSnapshotSeq = some S ∧
      (rm0.applySnapshot ⟨S, Msg.snapshot bl al⟩).2 = Except.ok S) ∧
    (∀ rm : RecoveryManager, rm.lastSnapshotSeq = none →
      ∀ (m : SeqMsg) (s ls : Nat),
        (rm.applyUpdate m).2 ≠ some (RecoveryError.staleUpdate s ls)) := by
  refine ⟨?_, ?_, ?_⟩
  · intro rm S h
    refine ⟨?_, ?_, ?_⟩
    · intro m hm
      simp [RecoveryManager.applyUpdate, h, hm]
    · intro m hm
      simp [RecoveryManager.applyUpdate, h, Nat.not_le.mpr hm]
    · intro m
      simp only [RecoveryManager.applyUpdate, h]
      split
      · exact h
      · simp
  · intro rm0 S bl al
    constructor
    · simp [RecoveryManager.applySnapshot, OrderBook.applyMessage]
    · simp [RecoveryManager.applySnapshot, OrderBook.applyMessage]
  · intro rm h m s ls
    simp only [RecoveryManager.applyUpdate, h]
    cases (rm.book.applyMessage m.msg).2 with
    | none => simp
    | some e => simp

/-- C5 witness: with last_snapshot_seq = 10, an update with sequence 7 is
rejected as stale and the manager is unchanged. -/
theorem C5_witness :
    RecoveryManager.applyUpdate ⟨some 10, OrderBook.new⟩ ⟨7, Msg.deleteOrder 3⟩ =
      (⟨some 10, OrderBook.new⟩, some (RecoveryError.staleUpdate 7 10)) :=
  (C5_recovery_stale_updates.1 ⟨some 10, OrderBook.new⟩ 10 rfl).1
    ⟨7, Msg.deleteOrder 3⟩ (by decide)

/-- end - start + 1 of a recorded gap interval, computed in wrapping u32
arithmetic, as the claim states it. -/
def intervalSizeWrap (g : Nat × Nat) : Nat := ((g.2 + U32 - g.1) % U32 + 1) % U32

/-- The wrapping u32 sum of interval sizes over the recorded gaps. -/
def wrapSumSizes (gaps : List (Nat × Nat)) : Nat :=
  gaps.foldl (fun acc g => (acc + intervalSizeWrap g) % U32) 0

/-- One `process` step preserves "wrapping sum of interval sizes = running
total gap count". -/
theorem process_preserves_wrapSum (d : GapDetector) (seqNum : Nat) (hs : seqNum < U32)
    (hd : wrapSumSizes d.gaps = d.totalGapCount) :
    wrapSumSizes (d.process seqNum).gaps = (d.process seqNum).totalGapCount := by
  cases hl : d.lastSequence with
  | none => simpa [GapDetector.process, hl] using hd
  | some last =>
    by_cases hne : seqNum = (last + 1) % U32
    · subst hne
      simp [GapDetector.process, hl]
      exact hd
    · simp only [GapDetector.process, hl, if_pos hne]
      rw [wrapSumSizes, List.foldl_append]
      simp only [List.foldl_cons, List.foldl_nil]
      rw [← wrapSumSizes, hd]
      simp only [intervalSizeWrap, U32] at *
      omega

/-- Folding `process` over any list of u32 sequence numbers preserves the
sum equation from any state satisfying it. -/
theorem foldl_process_wrapSum (seqs : List Nat) (d : GapDetector)
    (hall : ∀ x ∈ seqs, x < U32) (hd : wrapSumSizes d.gaps = d.totalGapCount) :
    wrapSumSizes ((seqs.foldl GapDetector.process d).gaps) =
      (seqs.foldl GapDetector.process d).totalGapCount := by
  induction seqs generalizing d with
  | nil => simpa using hd
  | cons a tl ih =>
    exact ih (d.process a) (fun x hx => hall x (List.mem_cons_of_mem a hx))
      (process_preserves_wrapSum d a (hall a (List.mem_cons_self a tl)) hd)

/-- `is_in_gap` is membership in some recorded closed interval. -/
theorem isInGap_iff (d : GapDetector) (s : Nat) :
    d.isInGap s = true ↔ ∃ g ∈ d.gaps, g.1 ≤ s ∧ s ≤ g.2 := by
  simp [GapDetector.isInGap, List.any_eq_true]

/-- C6: after any sequence of `process` calls on u32 inputs, the wrapping
u32 sum of (end - start + 1) over the recorded gap intervals equals
`total_gaps()`, and `is_in_gap(s)` holds exactly when some recorded
interval (start, end) satisfies start ≤ s ≤ end. -/
theorem C6_gap_sum_and_membership :
    ∀ seqs : List Nat, (∀ x ∈ seqs, x < U32) →
      wrapSumSizes ((seqs.foldl GapDetector.process GapDetector.new).gaps) =
        (seqs.foldl GapDetector.process GapDetector.new).totalGaps ∧
      ∀ s, (seqs.foldl GapDetector.process GapDetector.new).isInGap s = true ↔
        ∃ g ∈ (seqs.foldl GapDetector.process GapDetector.new).gaps,
          g.1 ≤ s ∧ s ≤ g.2 := by
  intro seqs hall
  exact ⟨foldl_process_wrapSum seqs GapDetector.new hall rfl,
    fun s => isInGap_iff (seqs.foldl GapDetector.process GapDetector.new) s⟩

/-- C6 witness: the stream 1, 5, 10 records gaps (2,4) and (6,9) with
total 7, and 3 lies in a recorded gap. -/
theorem C6_witness :
    (wrapSumSizes (([1, 5, 10].foldl GapDetector.process GapDetector.new).gaps) =
      ([1, 5, 10].foldl GapDetector.process GapDetector.new).totalGaps) ∧
    (([1, 5, 10].foldl GapDetector.process GapDetector.new).isInGap 3 = true ↔
      ∃ g ∈ ([1, 5, 10].foldl GapDetector.process GapDetector.new).gaps,
        g.1 ≤ 3 ∧ 3 ≤ g.2) :=
  ⟨(C6_gap_sum_and_membership [1, 5, 10] (by decide)).1,
    (C6_gap_sum_and_membership [1, 5, 10] (by decide)).2 3⟩

/-- Folding `pickHigher` from a seeded entry yields an entry of the seed
or the list whose key is maximal. -/
theorem foldl_pickHigher_some (ls : List (Nat × Nat)) (e : Nat × Nat) :
    ∃ r, ls.foldl pickHigher (some e) = some r ∧ (r = e ∨ r ∈ ls) ∧ e.1 ≤ r.1 ∧
      ∀ x ∈ ls, x.1 ≤ r.1 := by
  induction ls generalizing e with
  | nil => exact ⟨e, rfl, Or.inl rfl, le_refl _, by simp⟩
  | cons a tl ih =>
    simp only [List.foldl_cons]
    by_cases hc : e.1 < a.1
    · obtain ⟨r, h1, h2, h3, h4⟩ := ih a
      refine ⟨r, by simpa [pickHigher, hc] using h1, ?_, le_trans (le_of_lt hc) h3, ?_⟩
      · rcases h2 with h | h
        · exact Or.inr (by simp [h])
        · exact Or.inr (by simp [h])
      · intro x hx
        rcases List.mem_cons.mp hx with h | h
        · exact h ▸ h3
        · exact h4 x h
    · obtain ⟨r, h1, h2, h3, h4⟩ := ih e
      refine ⟨r, by simpa [pickHigher, hc] using h1, ?_, h3, ?_⟩
      · rcases h2 with h | h
        · exact Or.inl h
        · exact Or.inr (List.mem_cons_of_mem a h)
      intro x hx
      rcases List.mem_cons.mp hx with h | h
      · exact h ▸ le_trans (Nat.le_of_not_lt hc) h3
      · exact h4 x h

/-- Folding `pickLower` from a seeded entry yields an entry of the seed
or the list whose key is minimal. -/
theorem foldl_pickLower_some (ls : List (Nat × Nat)) (e : Nat × Nat) :
    ∃ r, ls.foldl pickLower (some e) = some r ∧ (r = e ∨ r ∈ ls) ∧ r.1 ≤ e.1 ∧
      ∀ x ∈ ls, r.1 ≤ x.1 := by
  induction ls generalizing e with
  | nil => exact ⟨e, rfl, Or.inl rfl, le_refl _, by simp⟩
  | cons a tl ih =>
    simp only [List.foldl_cons]
    by_cases hc : a.1 < e.1
    · obtain ⟨r, h1, h2, h3, h4⟩ := ih a
      refine ⟨r, by simpa [pickLower, hc] using h1, ?_, le_trans h3 (le_of_lt hc), ?_⟩
      · rcases h2 with h | h
        · exact Or.inr (by simp [h])
        · exact Or.inr (by simp [h])
      · intro x hx
        rcases List.mem_cons.mp hx with h | h
        · exact h ▸ h3
        · exact h4 x h
    · obtain ⟨r, h1, h2, h3, h4⟩ := ih e
      refine ⟨r, by simpa [pickLower, hc] using h1, ?_, h3, ?_⟩
      · rcases h2 with h | h
        · exact Or.inl h
        · exact Or.inr (List.mem_cons_of_mem a h)
      intro x hx
      rcases List.mem_cons.mp hx with h | h
      · exact h ▸ le_trans h3 (Nat.le_of_not_lt hc)
      · exact h4 x h

/-- `best_bid` is none on an empty bid map, else an entry of `bids` with
the maximal price. -/
theorem bestBid_spec (b : OrderBook) :
    (b.bids = [] ∧ b.bestBid = none) ∨
    ∃ r, b.bestBid = some r ∧ r ∈ b.bids ∧ ∀ x ∈ b.bids, x.1 ≤ r.1 := by
  cases hb : b.bids with
  | nil => exact Or.inl ⟨rfl, by simp [OrderBook.bestBid, hb]⟩
  | cons a tl =>
    right
    obtain ⟨r, h1, h2, h3, h4⟩ := foldl_pickHigher_some tl a
    refine ⟨r, ?_, ?_, ?_⟩
    · simpa [OrderBook.bestBid, hb, pickHigher] using h1
    · rcases h2 with h | h
      · simp [hb, h]
      · simp [hb, h]
    · intro x hx
      rcases List.mem_cons.mp hx with h | h
      · exact h ▸ h3
      · exact h4 x h

/-- `best_ask` is none on an empty ask map, else an entry of `asks` with
the minimal price. -/
theorem bestAsk_spec (b : OrderBook) :
    (b.asks = [] ∧ b.bestAsk = none) ∨
    ∃ r, b.bestAsk = some r ∧ r ∈ b.asks ∧ ∀ x ∈ b.asks, r.1 ≤ x.1 := by
  cases hb : b.asks with
  | nil => exact Or.inl ⟨rfl, by simp [OrderBook.bestAsk, hb]⟩
  | cons a tl =>
    right
    obtain ⟨r, h1, h2, h3, h4⟩ := foldl_pickLower_some tl a
    refine ⟨r, ?_, ?_, ?_⟩
    · simpa [OrderBook.bestAsk, hb, pickLower] using h1
    · rcases h2 with h | h
      · simp [hb, h]
      · simp [hb, h]
    · intro x hx
      rcases List.mem_cons.mp hx with h | h
      · exact h ▸ h3
      · exact h4 x h

/-- C8: `spread()` returns some difference exactly when both sides are
populated and the maximal bid price is strictly below the minimal ask
price, the difference being that ask minus that bid; in every other case
(either side empty, or a locked/crossed market) it returns none. -/
theorem C8_spread_iff :
    ∀ (b : OrderBook) (d : Nat),
      b.spread = some d ↔
        ∃ bp bq ap aq, (bp, bq) ∈ b.bids ∧ (∀ x ∈ b.bids, x.1 ≤ bp) ∧
          (ap, aq) ∈ b.asks ∧ (∀ y ∈ b.asks, ap ≤ y.1) ∧ bp < ap ∧ d = ap - bp := by
  intro b d
  constructor
  · intro h
    rcases bestBid_spec b with ⟨_, hbn⟩ | ⟨r, hr, hrm, hrmax⟩
    · simp [OrderBook.spread, hbn] at h
    · rcases bestAsk_spec b with ⟨_, han⟩ | ⟨r', hr', hrm', hrmin⟩
      · simp [OrderBook.spread, hr, han] at h
      · simp only [OrderBook.spread, hr, hr'] at h
        by_cases hlt : r.1 < r'.1
        · rw [if_pos hlt] at h
          refine ⟨r.1, r.2, r'.1, r'.2, by simpa using hrm, hrmax,
            by simpa using hrm', hrmin, hlt, ?_⟩
          injection h with h
          omega
        · rw [if_neg hlt] at h
          cases h
  · rintro ⟨bp, bq, ap, aq, hbm, hbmax, ham, hamin, hlt, hd⟩
    rcases bestBid_spec b with ⟨hb0, _⟩ | ⟨r, hr, hrm, hrmax⟩
    · rw [hb0] at hbm
      cases hbm
    · rcases bestAsk_spec b with ⟨ha0, _⟩ | ⟨r', hr', hrm', hrmin⟩
      · rw [ha0] at ham
        cases ham
      · have h1 : r.1 = bp := le_antisymm (hbmax r hrm) (hrmax (bp, bq) hbm)
        have h2 : r'.1 = ap := le_antisymm (hrmin (ap, aq) ham) (hamin r' hrm')
        simp [OrderBook.spread, hr, hr', h1, h2, hlt, hd]

/-- The quantity of the last level of `ls` at price `p` with strictly
positive quantity, if any — the value a snapshot's install loop leaves at
price `p` (later entries overwrite, zero-quantity entries are skipped). -/
def lastPosQty (p : Nat) : List (Nat × Nat) → Option Nat
  | [] => none
  | l :: tl =>
    match lastPosQty p tl with
    | some q => some q
    | none => if l.1 = p ∧ 0 < l.2 then some l.2 else none

/-- Lookup after insert-or-replace. -/
theorem lookupA_insertA {α : Type} (k : Nat) (v : α) (m : List (Nat × α)) (p : Nat) :
    lookupA (insertA k v m) p = if k = p then some v else lookupA m p := by
  induction m with
  | nil => simp [insertA, lookupA]
  | cons a tl ih =>
    simp only [insertA]
    by_cases h : a.1 = k
    · rw [if_pos h]
      by_cases hp : k = p
      · simp [lookupA, h, hp]
      · simp [lookupA, h, hp]
    · rw [if_neg h]
      simp only [lookupA]
      by_cases hp : a.1 = p
      · have hk : ¬ k = p := by omega
        rw [if_pos hp, if_neg hk, if_pos hp]
      · rw [if_neg hp, ih]
        by_cases hk : k = p
        · rw [if_pos hk, if_pos hk]
        · rw [if_neg hk, if_neg hk, if_neg hp]

/-- Lookup through the snapshot install fold: the last positive level at
the price wins; otherwise the accumulator is consulted. -/
theorem lookupA_installLevels_aux (ls : List (Nat × Nat)) (m : List (Nat × Nat)) (p : Nat) :
    lookupA (ls.foldl (fun m l => if 0 < l.2 then insertA l.1 l.2 m else m) m) p =
      match lastPosQty p ls with
      | some q => some q
      | none => lookupA m p := by
  induction ls generalizing m with
  | nil => simp [lastPosQty]
  | cons a tl ih =>
    simp only [List.foldl_cons, lastPosQty]
    rw [ih]
    cases ht : lastPosQty p tl with
    | some q => simp
    | none =>
      by_cases ha : 0 < a.2
      · rw [if_pos ha, lookupA_insertA]
        by_cases hp : a.1 = p
        · simp [hp, ha]
        · simp [hp, ha]
      · rw [if_neg ha]
        simp [ha]

/-- Lookup in an installed snapshot side map is exactly `lastPosQty`. -/
theorem lookupA_installLevels (ls : List (Nat × Nat)) (p : Nat) :
    lookupA (installLevels ls) p = lastPosQty p ls := by
  rw [installLevels, lookupA_installLevels_aux]
  cases lastPosQty p ls <;> simp [lookupA]

/-- `lastPosQty` over an append: the right part takes precedence. -/
theorem lastPosQty_append (p : Nat) (xs ys : List (Nat × Nat)) :
    lastPosQty p (xs ++ ys) =
      match lastPosQty p ys with
      | some q => some q
      | none => lastPosQty p xs := by
  induction xs with
  | nil => cases h : lastPosQty p ys <;> simp [lastPosQty, h]
  | cons a tl ih =>
    simp only [List.cons_append, lastPosQty, List.append_eq]
    rw [ih]
    cases hys : lastPosQty p ys with
    | none => cases htl : lastPosQty p tl <;> simp [htl]
    | some q => simp

/-- `lastPosQty` is none when no level has the price. -/
theorem lastPosQty_not_mem (p : Nat) (ls : List (Nat × Nat))
    (h : ∀ l ∈ ls, l.1 ≠ p) : lastPosQty p ls = none := by
  induction ls with
  | nil => rfl
  | cons a tl ih =>
    simp only [lastPosQty]
    rw [ih (fun l hl => h l (List.mem_cons_of_mem a hl))]
    simp [h a (List.mem_cons_self a tl)]

/-- C10: in a snapshot's level list, a later level at the same price
overwrites an earlier one (its quantity is not summed), while a later
zero-quantity level at an already-installed price is skipped, leaving the
earlier positive quantity in place. -/
theorem C10_snapshot_duplicate_price_levels :
    ∀ (b : OrderBook) (al pre mid : List (Nat × Nat)) (p q1 q2 : Nat), 0 < q1 →
      (0 < q2 →
        lookupA ((b.applyMessage
          (Msg.snapshot (pre ++ [(p, q1)] ++ mid ++ [(p, q2)]) al)).1).bids p = some q2) ∧
      (q2 = 0 → (∀ l ∈ mid, l.1 ≠ p) →
        lookupA ((b.applyMessage
          (Msg.snapshot (pre ++ [(p, q1)] ++ mid ++ [(p, q2)]) al)).1).bids p = some q1) := by
  intro b al pre mid p q1 q2 hq1
  have hbids : ∀ bl al', ((b.applyMessage (Msg.snapshot bl al')).1).bids = installLevels bl :=
    fun bl al' => rfl
  constructor
  · intro hq2
    rw [hbids, lookupA_installLevels]
    rw [List.append_assoc, List.append_assoc, lastPosQty_append]
    rw [lastPosQty_append]
    rw [lastPosQty_append]
    have h2 : lastPosQty p [(p, q2)] = some q2 := by simp [lastPosQty, hq2]
    simp [h2]
  · intro hq2 hmid
    rw [hbids, lookupA_installLevels]
    rw [List.append_assoc, List.append_assoc, lastPosQty_append]
    rw [lastPosQty_append]
    rw [lastPosQty_append]
    have h2 : lastPosQty p [(p, q2)] = none := by simp [lastPosQty, hq2]
    have hm : lastPosQty p mid = none := lastPosQty_not_mem p mid hmid
    have h1 : lastPosQty p [(p, q1)] = some q1 := by simp [lastPosQty, hq1]
    simp [h2, hm, h1]

/-- C10 witness: a snapshot with bid levels (7,3) then (7,5) leaves price
7 mapped to 5, the later quantity. -/
theorem C10_witness :
    lookupA ((OrderBook.new.applyMessage (Msg.snapshot [(7, 3), (7, 5)] [])).1).bids 7 =
      some 5 :=
  (C10_snapshot_duplicate_price_levels OrderBook.new [] [] [] 7 3 5 (by decide)).1 (by decide)

/-- The levels of a snapshot side with strictly positive quantity — the
ones the claim says are installed. -/
def posLevels (ls : List (Nat × Nat)) : List (Nat × Nat) :=
  ls.filter (fun l => decide (0 < l.2))

/-- With pairwise distinct prices among the positive levels, `lastPosQty`
is exactly membership in the positive levels. -/
theorem lastPosQty_eq_some_iff (p : Nat) (ls : List (Nat × Nat))
    (h : ((posLevels ls).map Prod.fst).Nodup) :
    ∀ q, lastPosQty p ls = some q ↔ (p, q) ∈ posLevels ls := by
  induction ls with
  | nil =>
    intro q
    simp [lastPosQty, posLevels]
  | cons a tl ih =>
    intro q
    by_cases ha : 0 < a.2
    · have hfil : posLevels (a :: tl) = a :: posLevels tl := by
        simp [posLevels, List.filter_cons, ha]
      rw [hfil] at h ⊢
      rw [List.map_cons, List.nodup_cons] at h
      obtain ⟨hna, htl⟩ := h
      have ih' := ih htl
      simp only [lastPosQty]
      cases htq : lastPosQty p tl with
      | some q0 =>
        have hmem : (p, q0) ∈ posLevels tl := (ih' q0).mp htq
        have hp_ne : ¬ a.1 = p := fun hcon =>
          hna (List.mem_map.mpr ⟨(p, q0), hmem, hcon.symm⟩)
        show some q0 = some q ↔ (p, q) ∈ a :: posLevels tl
        constructor
        · intro hq
          have hq' : q0 = q := by injection hq
          exact List.mem_cons_of_mem a (hq' ▸ hmem)
        · intro hm
          rcases List.mem_cons.mp hm with hae | hmt
          · exact absurd (congrArg Prod.fst hae).symm hp_ne
          · have hq := (ih' q).mpr hmt
            rw [htq] at hq
            exact hq
      | none =>
        have hnm : ∀ q', (p, q') ∉ posLevels tl := fun q' hq' => by
          have hx := (ih' q').mpr hq'
          rw [htq] at hx
          exact Option.noConfusion hx
        by_cases hp : a.1 = p
        · show (if a.1 = p ∧ 0 < a.2 then some a.2 else none) = some q ↔
            (p, q) ∈ a :: posLevels tl
          rw [if_pos ⟨hp, ha⟩]
          constructor
          · intro hq
            have hq' : a.2 = q := by injection hq
            have hap : a = (p, q) := by
              obtain ⟨a1, a2⟩ := a
              simp only at hp hq'
              rw [hp, hq']
            exact List.mem_cons.mpr (Or.inl hap.symm)
          · intro hm
            rcases List.mem_cons.mp hm with hae | hmt
            · exact congrArg some (congrArg Prod.snd hae).symm
            · exact absurd hmt (hnm q)
        · show (if a.1 = p ∧ 0 < a.2 then some a.2 else none) = some q ↔
            (p, q) ∈ a :: posLevels tl
          rw [if_neg (by simp [hp])]
          constructor
          · intro hq
            exact Option.noConfusion hq
          · intro hm
            rcases List.mem_cons.mp hm with hae | hmt
            · exact absurd (congrArg Prod.fst hae).symm hp
            · exact absurd hmt (hnm q)
    · have hfil : posLevels (a :: tl) = posLevels tl := by
        simp [posLevels, List.filter_cons, ha]
      rw [hfil] at h ⊢
      have ih' := ih h
      simp only [lastPosQty]
      cases htq : lastPosQty p tl with
      | some q0 =>
        show some q0 = some q ↔ (p, q) ∈ posLevels tl
        rw [← htq]
        exact ih' q
      | none =>
        show (if a.1 = p ∧ 0 < a.2 then some a.2 else none) = some q ↔
          (p, q) ∈ posLevels tl
        rw [if_neg (by simp [ha]), ← htq]
        exact ih' q

/-- C4: applying a Snapshot message empties `orders`, installs exactly
the snapshot's strictly-positive levels into `bids`/`asks` (each price
mapping to that level's quantity, zero-quantity levels skipped), erases
all pre-snapshot state (the result does not depend on the previous book),
and the book inside `RecoveryManager::apply_snapshot` is built the same
way. -/
theorem C4_snapshot_resets_book :
    ∀ (b : OrderBook) (bl al : List (Nat × Nat)),
      (b.applyMessage (Msg.snapshot bl al)).2 = none ∧
      (b.applyMessage (Msg.snapshot bl al)).1.orders = [] ∧
      (∀ b' : OrderBook,
        (b'.applyMessage (Msg.snapshot bl al)).1 = (b.applyMessage (Msg.snapshot bl al)).1) ∧
      (((posLevels bl).map Prod.fst).Nodup →
        ∀ p q, lookupA (b.applyMessage (Msg.snapshot bl al)).1.bids p = some q ↔
          (p, q) ∈ posLevels bl) ∧
      (((posLevels al).map Prod.fst).Nodup →
        ∀ p q, lookupA (b.applyMessage (Msg.snapshot bl al)).1.asks p = some q ↔
          (p, q) ∈ posLevels al) ∧
      (∀ (rm : RecoveryManager) (S : Nat),
        ((rm.applySnapshot ⟨S, Msg.snapshot bl al⟩).1).book =
          (rm.book.applyMessage (Msg.snapshot bl al)).1) := by
  intro b bl al
  refine ⟨rfl, rfl, fun b' => rfl, ?_, ?_, fun rm S => rfl⟩
  · intro hnd p q
    have hb : (b.applyMessage (Msg.snapshot bl al)).1.bids = installLevels bl := rfl
    rw [hb, lookupA_installLevels]
    exact lastPosQty_eq_some_iff p bl hnd q
  · intro hnd p q
    have hb : (b.applyMessage (Msg.snapshot bl al)).1.asks = installLevels al := rfl
    rw [hb, lookupA_installLevels]
    exact lastPosQty_eq_some_iff p al hnd q

/-- C4 witness: installing the snapshot bid levels (7,3), (9,0) over a
non-empty book maps price 7 to 3 (and the zero level at 9 is skipped,
since (9,0) is not a positive level). -/
theorem C4_witness :
    lookupA ((OrderBook.new.applyMessage (Msg.snapshot [(7, 3), (9, 0)] [])).1).bids 7 =
      some 3 :=
  ((C4_snapshot_resets_book OrderBook.new [(7, 3), (9, 0)] []).2.2.2.1 (by decide) 7 3).mpr
    (by decide)

/-- One unfolding of the decode_stream loop body, with a plain match. -/
theorem decodeStreamGo_unfold (buf : List Nat) (cb : SeqMsg → Bool) (count : Nat) :
    decodeStreamGo buf cb count =
      if buf = [] then Except.ok count
      else
        match decode buf with
        | Except.ok (msg, consumed) =>
          if cb msg then decodeStreamGo (buf.drop consumed) cb (count + 1)
          else Except.ok count
        | Except.error (DecodeError.bufferTooSmall _ _) => Except.ok count
        | Except.error e => Except.error e := by
  rw [decodeStreamGo.eq_def]
  by_cases hb : buf = []
  · simp [hb]
  · rw [if_neg hb, if_neg hb]
    split
    · rename_i msg consumed heq
      rw [heq]
    · rename_i need got heq
      rw [heq]
    · rename_i e heq hne
      rw [hne]
      cases e with
      | bufferTooSmall n g => exact (heq n g rfl).elim
      | invalidMessageType t => rfl
      | truncatedMessage d a => rfl
      | invalidHeader => rfl
      | misalignedSnapshot => rfl

/-- The loop's running count only shifts the successful result: the count
accumulator distributes over the rest of the stream. -/
theorem decodeStreamGo_shift (buf : List Nat) (cb : SeqMsg → Bool) (n : Nat) :
    decodeStreamGo buf cb n = (decodeStreamGo buf cb 0).map (· + n) := by
  suffices H : ∀ (k : Nat) (buf : List Nat), buf.length ≤ k → ∀ n,
      decodeStreamGo buf cb n = (decodeStreamGo buf cb 0).map (· + n) from
    H buf.length buf le_rfl n
  intro k
  induction k with
  | zero =>
    intro buf hlen n
    have hb : buf = [] := List.length_eq_zero.mp (Nat.le_zero.mp hlen)
    subst hb
    rw [decodeStreamGo_unfold, decodeStreamGo_unfold]
    simp [Except.map]
  | succ k ih =>
    intro buf hlen n
    by_cases hb : buf = []
    · subst hb
      rw [decodeStreamGo_unfold, decodeStreamGo_unfold]
      simp [Except.map]
    · rw [decodeStreamGo_unfold, decodeStreamGo_unfold, if_neg hb, if_neg hb]
      cases hdec : decode buf with
      | ok pr =>
        obtain ⟨msg, consumed⟩ := pr
        dsimp only
        by_cases hcb : cb msg = true
        · rw [if_pos hcb, if_pos hcb]
          have hcons := decode_ok_consumed hdec
          have hlt : (buf.drop consumed).length ≤ k := by
            rw [List.length_drop]
            omega
          rw [ih _ hlt (n + 1), ih _ hlt (0 + 1)]
          cases decodeStreamGo (buf.drop consumed) cb 0 with
          | error e => simp [Except.map]
          | ok a =>
            simp only [Except.map]
            congr 1
            omega
        · rw [if_neg hcb, if_neg hcb]
          simp [Except.map]
      | error e =>
        cases e <;> simp [Except.map]

/-- The loop never returns a BufferTooSmall error: every BufferTooSmall
from `decode` is treated as the normal end of the stream. -/
theorem decodeStreamGo_no_bufferTooSmall (buf : List Nat) (cb : SeqMsg → Bool)
    (count : Nat) :
    ∀ n g, decodeStreamGo buf cb count ≠
      Except.error (DecodeError.bufferTooSmall n g) := by
  suffices H : ∀ (k : Nat) (buf : List Nat), buf.length ≤ k → ∀ count n g,
      decodeStreamGo buf cb count ≠ Except.error (DecodeError.bufferTooSmall n g) from
    fun n g => H buf.length buf le_rfl count n g
  intro k
  induction k with
  | zero =>
    intro buf hlen count n g
    have hb : buf = [] := List.length_eq_zero.mp (Nat.le_zero.mp hlen)
    subst hb
    rw [decodeStreamGo_unfold]
    simp
  | succ k ih =>
    intro buf hlen count n g
    by_cases hb : buf = []
    · subst hb
      rw [decodeStreamGo_unfold]
      simp
    · rw [decodeStreamGo_unfold, if_neg hb]
      cases hdec : decode buf with
      | ok pr =>
        obtain ⟨msg, consumed⟩ := pr
        dsimp only
        by_cases hcb : cb msg = true
        · rw [if_pos hcb]
          have hcons := decode_ok_consumed hdec
          have hlt : (buf.drop consumed).length ≤ k := by
            rw [List.length_drop]
            omega
          exact ih _ hlt (count + 1) n g
        · rw [if_neg hcb]
          simp
      | error e =>
        cases e <;> simp

/-- C3 counterexample: the 8-byte buffer [1, 8, 0, 0, 0, 0, 0, 0] — an
AddOrder header whose declared length 8 passes the header checks but
fails the per-type minimum-size check (need 46) — makes `decode` fail
with BufferTooSmall on a tail of a full header's size, yet
`decode_stream` returns Ok 0, treating it as normal end of stream
instead of propagating an error. -/
theorem C3_counterexample_min_size_swallowed :
    HEADER_SIZE ≤ ([1, 8, 0, 0, 0, 0, 0, 0] : List Nat).length ∧
    decode [1, 8, 0, 0, 0, 0, 0, 0] = Except.error (DecodeError.bufferTooSmall 46 8) ∧
    decodeStream [1, 8, 0, 0, 0, 0, 0, 0] (fun _ => true) = Except.ok 0 := by
  refine ⟨by decide, rfl, ?_⟩
  rw [decodeStream, decodeStreamGo_unfold]
  rfl

/-- C3 amended: `decode_stream` propagates InvalidMessageType and
TruncatedMessage errors as Err, but treats every BufferTooSmall —
whether a tail smaller than one 8-byte header or a per-type
minimum-size failure on a tail of at least 8 bytes — as the normal end
of the stream, returning Ok with the count of messages decoded so far;
it also stops with Ok when the callback signals stop, and on a decoded
message it continues on the remaining buffer with the count shifted. -/
theorem C3_decode_stream_error_policy :
    ∀ (buf : List Nat) (cb : SeqMsg → Bool),
      (∀ n g, decodeStream buf cb ≠ Except.error (DecodeError.bufferTooSmall n g)) ∧
      (buf = [] → decodeStream buf cb = Except.ok 0) ∧
      (∀ n g, decode buf = Except.error (DecodeError.bufferTooSmall n g) →
        decodeStream buf cb = Except.ok 0) ∧
      (∀ t, decode buf = Except.error (DecodeError.invalidMessageType t) →
        decodeStream buf cb = Except.error (DecodeError.invalidMessageType t)) ∧
      (∀ d a, decode buf = Except.error (DecodeError.truncatedMessage d a) →
        decodeStream buf cb = Except.error (DecodeError.truncatedMessage d a)) ∧
      (∀ m c, decode buf = Except.ok (m, c) → cb m = false →
        decodeStream buf cb = Except.ok 0) ∧
      (∀ m c, decode buf = Except.ok (m, c) → cb m = true →
        decodeStream buf cb = (decodeStream (buf.drop c) cb).map (· + 1)) := by
  intro buf cb
  refine ⟨fun n g => decodeStreamGo_no_bufferTooSmall buf cb 0 n g, ?_, ?_, ?_, ?_, ?_, ?_⟩
  · intro hb
    subst hb
    rw [decodeStream, decodeStreamGo_unfold]
    simp
  · intro n g h
    rw [decodeStream, decodeStreamGo_unfold]
    by_cases hb : buf = []
    · simp [hb]
    · rw [if_neg hb, h]
  · intro t h
    rw [decodeStream, decodeStreamGo_unfold]
    by_cases hb : buf = []
    · rw [hb] at h
      simp [decode, HEADER_SIZE] at h
    · rw [if_neg hb, h]
  · intro d a h
    rw [decodeStream, decodeStreamGo_unfold]
    by_cases hb : buf = []
    · rw [hb] at h
      simp [decode, HEADER_SIZE] at h
    · rw [if_neg hb, h]
  · intro m c h hf
    rw [decodeStream, decodeStreamGo_unfold]
    by_cases hb : buf = []
    · rw [hb] at h
      simp [decode, HEADER_SIZE] at h
    · rw [if_neg hb, h]
      simp [hf]
  · intro m c h ht
    rw [decodeStream, decodeStreamGo_unfold]
    by_cases hb : buf = []
    · rw [hb] at h
      simp [decode, HEADER_SIZE] at h
    · rw [if_neg hb, h]
      simp only [ht, if_pos rfl]
      rw [decodeStream]
      simpa using decodeStreamGo_shift (buf.drop c) cb 1

/-- C3 witness (amended): on the counterexample buffer the per-type
minimum-size BufferTooSmall ends the stream with Ok 0. -/
theorem C3_witness :
    decodeStream [1, 8, 0, 0, 0, 0, 0, 0] (fun _ => true) = Except.ok 0 :=
  (C3_decode_stream_error_policy [1, 8, 0, 0, 0, 0, 0, 0] (fun _ => true)).2.2.1 46 8 rfl

end FeedHandler
